import Mathlib

/-!
Verification of the task-manager repository (package `handlers`, file
`src/handlers/tasks.go`, and the `main` package).

The Go program manages long-running tasks.  Each task has a uuid, a
capacity-1 control channel `chan int` and a cached state in two maps
`workers : map[string]chan int` and `states : map[string]int`.  Directives
are plain ints: `start = 2`, `pause = 1`, `kill = 0`.  HTTP handlers
post directives; the worker goroutine `task` polls its channel once per
iteration, pauses, resumes, or kills itself, and a shutdown path
broadcasts `kill` and waits on a WaitGroup.

The embedding below is sequential: each handler is a pure function from
the handler state to (new state, response, HTTP code, posted directives),
with `Option` result where the Go code would block on a channel send or
receive (`none` = the goroutine is blocked at that point).  Go maps are
association lists; a Go map read of a missing key yields the zero value,
modelled by `mgetD`.
-/

namespace TaskManager

/-- Go constant `start = 2` (tasks.go line 20): the Run directive and the Running state. -/
def start : Nat := 2

/-- Go constant `pause = 1` (tasks.go line 21): the Pause directive and the Paused state. -/
def pause : Nat := 1

/-- Go constant `kill = 0` (tasks.go line 22): the Kill directive and the Killed state. -/
def kill : Nat := 0

/-- Go constant `taskCount = 10` (tasks.go line 27): the fixed iteration budget. -/
def taskCount : Nat := 10

/-- A Go buffered channel `chan int`: a capacity and the buffered values in FIFO order. -/
structure Chan where
  cap : Nat
  buf : List Nat
deriving DecidableEq

/-- Non-blocking part of a Go channel send: `some` of the new channel when the buffer
has room, `none` when the send would block the sending goroutine. -/
def chanSend (c : Chan) (v : Nat) : Option Chan :=
  if c.buf.length < c.cap then some { c with buf := c.buf ++ [v] } else none

/-- Association-list read, modelling a Go map lookup `v, ok := m[k]`. -/
def mget {A : Type} : List (String × A) → String → Option A
  | [], _ => none
  | (k2, v2) :: rest, k => if k = k2 then some v2 else mget rest k

/-- Go map read `m[k]` that yields the zero value `d` when the key is absent. -/
def mgetD {A : Type} (m : List (String × A)) (k : String) (d : A) : A :=
  (mget m k).getD d

/-- Association-list write, modelling a Go map assignment `m[k] = v`. -/
def mset {A : Type} : List (String × A) → String → A → List (String × A)
  | [], k, v => [(k, v)]
  | (k2, v2) :: rest, k, v => if k = k2 then (k, v) :: rest else (k2, v2) :: mset rest k v

/-- Association-list delete, modelling Go `delete(m, k)`. -/
def mdel {A : Type} : List (String × A) → String → List (String × A)
  | [], _ => []
  | (k2, v2) :: rest, k => if k = k2 then mdel rest k else (k2, v2) :: mdel rest k

theorem mget_mset_self {A : Type} (m : List (String × A)) (k : String) (v : A) :
    mget (mset m k v) k = some v := by
  induction m with
  | nil => simp [mget, mset]
  | cons hd tl ih =>
    obtain ⟨k2, v2⟩ := hd
    by_cases h : k = k2 <;> simp [mget, mset, h, ih]

theorem mget_mset_ne {A : Type} (m : List (String × A)) (k k2 : String) (v : A)
    (h : k2 ≠ k) : mget (mset m k v) k2 = mget m k2 := by
  induction m with
  | nil => simp [mget, mset, h]
  | cons hd tl ih =>
    obtain ⟨k3, v3⟩ := hd
    by_cases h2 : k = k3
    · subst h2
      simp [mget, mset, h]
    · by_cases h3 : k2 = k3 <;> simp [mget, mset, h2, h3, ih]

theorem mget_mdel_self {A : Type} (m : List (String × A)) (k : String) :
    mget (mdel m k) k = none := by
  induction m with
  | nil => simp [mget, mdel]
  | cons hd tl ih =>
    obtain ⟨k2, v2⟩ := hd
    by_cases h : k = k2
    · subst h
      simp [mdel, ih]
    · simp [mget, mdel, h, ih]

theorem mget_mdel_ne {A : Type} (m : List (String × A)) (k k2 : String)
    (h : k2 ≠ k) : mget (mdel m k) k2 = mget m k2 := by
  induction m with
  | nil => simp [mget, mdel]
  | cons hd tl ih =>
    obtain ⟨k3, v3⟩ := hd
    by_cases h2 : k = k3
    · subst h2
      simp [mget, mdel, h, ih]
    · by_cases h3 : k2 = k3 <;> simp [mget, mdel, h2, h3, ih]

theorem mget_mset_isSome {A : Type} (m : List (String × A)) (k k2 : String) (v : A) :
    (mget (mset m k v) k2).isSome = true ↔ k2 = k ∨ (mget m k2).isSome = true := by
  by_cases h : k2 = k
  · subst h
    simp [mget_mset_self]
  · simp [mget_mset_ne m k k2 v h, h]

/-- The `Response` struct (tasks.go lines 33-38) with Go zero values as defaults. -/
structure Response where
  uuid : String := ""
  err : String := ""
  message : String := ""
  success : Bool := false
deriving DecidableEq

/-- The mutable fields of `TaskHandler` (tasks.go lines 53-58): the two registry maps.
The logger and the WaitGroup pointer are modelled separately (the WaitGroup as an
explicit `Int` counter threaded through the worker functions). -/
structure TaskHandler where
  workers : List (String × Chan)
  states : List (String × Nat)
deriving DecidableEq

/-- A handler outcome: new handler state, HTTP response, HTTP status code, and the
directives posted on control channels, as (uuid, directive) pairs.  `none` means the
handler goroutine blocks (a send on a full or nil channel). -/
abbrev HandlerOut := Option (TaskHandler × Response × Nat × List (String × Nat))

/-- `CreateTask` (tasks.go lines 68-80) with the dash-stripped uuid supplied by the
caller (in Go it comes from `uuid.New()`).  Inserts a fresh capacity-1 channel and
state `start`, spawns the worker (`go task(...)`, recorded in the returned list of
spawned uuids), then sends `start` on the fresh channel. -/
def CreateTask (t : TaskHandler) (u : String) : Option (TaskHandler × Response × Nat × List String) :=
  let t1 : TaskHandler :=
    { workers := mset t.workers u { cap := 1, buf := [] },
      states := mset t.states u start }
  match mget t1.workers u with
  | none => none
  | some c =>
    match chanSend c start with
    | none => none
    | some c2 =>
      some ({ t1 with workers := mset t1.workers u c2 },
            { success := true, uuid := u }, 200, [u])

/-- `PauseTask` (tasks.go lines 83-96).  When the cached state is already `pause`
it short-circuits with `Response{Success: true, Message: "Already paused"}` and
posts nothing; otherwise it sends `pause` on the task's channel and caches `pause`. -/
def PauseTask (t : TaskHandler) (u : String) : HandlerOut :=
  if mgetD t.states u 0 = pause then
    some (t, { success := true, message := "Already paused" }, 200, [])
  else
    match mget t.workers u with
    | none => none
    | some c =>
      match chanSend c pause with
      | none => none
      | some c2 =>
        some ({ workers := mset t.workers u c2, states := mset t.states u pause },
              { success := true }, 200, [(u, pause)])

/-- `ResumeTask` (tasks.go lines 99-113), the analogue for `start`, with the
source's response text `"Already runnning"`. -/
def ResumeTask (t : TaskHandler) (u : String) : HandlerOut :=
  if mgetD t.states u 0 = start then
    some (t, { success := true, message := "Already runnning" }, 200, [])
  else
    match mget t.workers u with
    | none => none
    | some c =>
      match chanSend c start with
      | none => none
      | some c2 =>
        some ({ workers := mset t.workers u c2, states := mset t.states u start },
              { success := true }, 200, [(u, start)])

/-- `DeleteTask` (tasks.go lines 116-124): sends `kill` and caches `kill`, with no
short-circuit. -/
def DeleteTask (t : TaskHandler) (u : String) : HandlerOut :=
  match mget t.workers u with
  | none => none
  | some c =>
    match chanSend c kill with
    | none => none
    | some c2 =>
      some ({ workers := mset t.workers u c2, states := mset t.states u kill },
            { success := true }, 200, [(u, kill)])

/-- `MiddlewareCheckTask` (tasks.go lines 144-162): rejects an id absent from
`workers` with a 400 response before the wrapped handler runs. -/
def MiddlewareCheckTask (next : TaskHandler → String → HandlerOut)
    (t : TaskHandler) (i : String) : HandlerOut :=
  match mget t.workers i with
  | none =>
    some (t, { success := false, err := "task for given uuid does not exist" }, 400, [])
  | some _ => next t i

/-- `closeRoutine` (tasks.go lines 126-131): `wg.Done()`, close the channel, delete
both map entries.  Closing the channel is subsumed by deleting the `workers` entry. -/
def closeRoutine (t : TaskHandler) (wg : Int) (u : String) : TaskHandler × Int :=
  ({ workers := mdel t.workers u, states := mdel t.states u }, wg - 1)

/-- One pass of the `for k := range t.workers` loop of `TerminateTasks`
(tasks.go lines 134-138): send `kill` to every channel, `none` if some send blocks. -/
def broadcastKill : List (String × Chan) → Option (List (String × Chan))
  | [] => some []
  | (k, c) :: rest =>
    match chanSend c kill with
    | none => none
    | some c2 => (broadcastKill rest).map (fun r => (k, c2) :: r)

/-- `TerminateTasks` (tasks.go lines 134-138). -/
def TerminateTasks (t : TaskHandler) : Option TaskHandler :=
  match broadcastKill t.workers with
  | none => none
  | some w2 => some { t with workers := w2 }

theorem chanSend_some (c : Chan) (v : Nat) (c2 : Chan) (h : chanSend c v = some c2) :
    c2.buf = c.buf ++ [v] ∧ c2.cap = c.cap := by
  unfold chanSend at h
  by_cases hlt : c.buf.length < c.cap
  · simp [hlt] at h
    subst h
    exact ⟨rfl, rfl⟩
  · simp [hlt] at h

theorem broadcastKill_mget (w w2 : List (String × Chan))
    (h : broadcastKill w = some w2) (k : String) (c : Chan)
    (hk : mget w k = some c) :
    ∃ c2, mget w2 k = some c2 ∧ c2.buf = c.buf ++ [kill] := by
  induction w generalizing w2 with
  | nil => simp [mget] at hk
  | cons hd tl ih =>
    obtain ⟨k1, c1⟩ := hd
    unfold broadcastKill at h
    cases hs : chanSend c1 kill with
    | none => simp [hs] at h
    | some c1' =>
      simp only [hs] at h
      cases hrest : broadcastKill tl with
      | none => simp [hrest] at h
      | some tl' =>
        simp only [hrest, Option.map_some'] at h
        injection h with h
        subst h
        by_cases hkk : k = k1
        · subst hkk
          simp only [mget, eq_self_iff_true, if_true, Option.some_inj] at hk
          subst hk
          exact ⟨c1', by simp [mget], (chanSend_some c1 kill c1' hs).1⟩
        · simp only [mget, if_neg hkk] at hk ⊢
          exact ih tl' hrest hk

/-- Final status of a worker run: natural completion, killed, or blocked forever
inside the pause loop awaiting a directive that never arrives. -/
inductive Outcome where
  | completed
  | killed
  | blocked
deriving DecidableEq

/-- The lifecycle statuses the worker logs, in order (tasks.go lines 174, 181, 187, 197). -/
inductive Ev where
  | paused
  | killed
  | running
  | completed
deriving DecidableEq

/-- Observable result of running the worker loop: outcome, the ordered status
log, the number of completed work iterations (the `time.Sleep` at line 194),
and the number of `go rollBack(...)` goroutines spawned (line 183). -/
structure RunResult where
  outcome : Outcome
  trace : List Ev
  work : Nat
  rollbacks : Nat
deriving DecidableEq

/-- The worker's view of its control channel over time: one entry per channel
interaction opportunity.  `none` means the channel was empty at that instant,
`some d` that directive `d` was buffered and is consumed.  A non-blocking check
(`len(ch) > 0`, line 171) consumes one entry; a blocking receive (line 176)
waits through `none` entries until a `some` arrives. -/
abbrev Inputs := List (Option Nat)

/-- The inner pause loop `for state == pause { state = <-ch }` (tasks.go lines
175-177), together with the blocking receive it performs: wait through empty
instants and further `pause` directives until a non-`pause` directive arrives.
`none` means no such directive ever arrives and the worker blocks forever. -/
def drainPause : Inputs → Option (Nat × Inputs)
  | [] => none
  | none :: rest => drainPause rest
  | some d :: rest => if d = pause then drainPause rest else some (d, rest)

/-- The worker's iteration loop (tasks.go lines 170-197), with `fuel` remaining
iterations.  Each iteration non-blockingly checks the channel; a pending `pause`
enters the pause loop (`drainPause`); a pending (or un-pausing) `kill` logs
`killed`, spawns one rollback and returns; any other directive logs `running`;
then one unit of simulated work runs.  Exhausting the budget logs `completed`. -/
def taskLoop : Nat → Inputs → RunResult
  | 0, _ => { outcome := Outcome.completed, trace := [Ev.completed], work := 0, rollbacks := 0 }
  | Nat.succ n, [] =>
    let r := taskLoop n []
    { r with work := r.work + 1 }
  | Nat.succ n, none :: rest =>
    let r := taskLoop n rest
    { r with work := r.work + 1 }
  | Nat.succ n, some d :: rest =>
    if d = pause then
      match drainPause rest with
      | none => { outcome := Outcome.blocked, trace := [Ev.paused], work := 0, rollbacks := 0 }
      | some (d2, rest2) =>
        if d2 = kill then
          { outcome := Outcome.killed, trace := [Ev.paused, Ev.killed], work := 0, rollbacks := 1 }
        else
          let r := taskLoop n rest2
          { outcome := r.outcome, trace := Ev.paused :: Ev.running :: r.trace,
            work := r.work + 1, rollbacks := r.rollbacks }
    else if d = kill then
      { outcome := Outcome.killed, trace := [Ev.killed], work := 0, rollbacks := 1 }
    else
      let r := taskLoop n rest
      { outcome := r.outcome, trace := Ev.running :: r.trace,
        work := r.work + 1, rollbacks := r.rollbacks }

/-- The whole worker goroutine `task` (tasks.go lines 165-198): `wg.Add(1)`,
`defer closeRoutine`, then the loop.  The deferred `closeRoutine` runs exactly
when the loop returns, i.e. on every outcome except blocking forever.  The `id`
parameter is only logged in Go and is unused here. -/
def task (_id : Nat) (u : String) (count : Nat) (t : TaskHandler) (wg : Int)
    (inp : Inputs) : RunResult × TaskHandler × Int :=
  let wg1 := wg + 1
  let r := taskLoop count inp
  match r.outcome with
  | Outcome.blocked => (r, t, wg1)
  | _ =>
    let p := closeRoutine t wg1 u
    (r, p.1, p.2)

theorem drainPause_ne_pause (inp : Inputs) (d : Nat) (rest : Inputs)
    (h : drainPause inp = some (d, rest)) : d ≠ pause := by
  induction inp with
  | nil => simp [drainPause] at h
  | cons hd tl ih =>
    cases hd with
    | none => exact ih (by simpa [drainPause] using h)
    | some d2 =>
      by_cases hp : d2 = pause
      · exact ih (by simpa [drainPause, hp] using h)
      · simp only [drainPause, if_neg hp, Option.some_inj] at h
        cases h
        exact hp

theorem drainPause_mem (inp : Inputs) (d : Nat) (rest : Inputs)
    (h : drainPause inp = some (d, rest)) :
    some d ∈ inp ∧ ∀ x ∈ rest, x ∈ inp := by
  induction inp with
  | nil => simp [drainPause] at h
  | cons hd tl ih =>
    cases hd with
    | none =>
      have h2 := ih (by simpa [drainPause] using h)
      exact ⟨List.mem_cons_of_mem _ h2.1, fun x hx => List.mem_cons_of_mem _ (h2.2 x hx)⟩
    | some d2 =>
      by_cases hp : d2 = pause
      · have h2 := ih (by simpa [drainPause, hp] using h)
        exact ⟨List.mem_cons_of_mem _ h2.1, fun x hx => List.mem_cons_of_mem _ (h2.2 x hx)⟩
      · simp only [drainPause, if_neg hp, Option.some_inj] at h
        cases h
        exact ⟨List.mem_cons_self _ _, fun x hx => List.mem_cons_of_mem _ hx⟩

theorem drainPause_pad (pad inp : Inputs)
    (h : ∀ x ∈ pad, x = none ∨ x = some pause) :
    drainPause (pad ++ inp) = drainPause inp := by
  induction pad with
  | nil => simp
  | cons hd tl ih =>
    have htl : ∀ x ∈ tl, x = none ∨ x = some pause :=
      fun x hx => h x (List.mem_cons_of_mem _ hx)
    rcases h hd (List.mem_cons_self _ _) with hn | hp
    · subst hn
      simpa [drainPause] using ih htl
    · subst hp
      simpa [drainPause] using ih htl

theorem taskLoop_killed_rollbacks : ∀ (n : Nat) (inp : Inputs),
    (taskLoop n inp).outcome = Outcome.killed → (taskLoop n inp).rollbacks = 1 := by
  intro n
  induction n with
  | zero => intro inp h; simp [taskLoop] at h
  | succ n ih =>
    intro inp
    match inp with
    | [] =>
      intro h
      simp only [taskLoop] at h ⊢
      exact ih [] h
    | none :: rest =>
      intro h
      simp only [taskLoop] at h ⊢
      exact ih rest h
    | some d :: rest =>
      intro h
      simp only [taskLoop] at h ⊢
      by_cases hp : d = pause
      · simp only [if_pos hp] at h ⊢
        cases hdr : drainPause rest with
        | none => simp [hdr] at h
        | some p =>
          obtain ⟨d2, rest2⟩ := p
          simp only [hdr] at h ⊢
          by_cases hk : d2 = kill
          · simp [hk]
          · simp only [if_neg hk] at h ⊢
            exact ih rest2 h
      · simp only [if_neg hp] at h ⊢
        by_cases hk : d = kill
        · simp [hk]
        · simp only [if_neg hk] at h ⊢
          exact ih rest h

theorem taskLoop_completed : ∀ (n : Nat) (inp : Inputs),
    (taskLoop n inp).outcome = Outcome.completed →
    (taskLoop n inp).rollbacks = 0 ∧ (taskLoop n inp).work = n ∧
      ∃ l, (taskLoop n inp).trace = l ++ [Ev.completed] := by
  intro n
  induction n with
  | zero =>
    intro inp _
    exact ⟨rfl, rfl, [], rfl⟩
  | succ n ih =>
    intro inp
    match inp with
    | [] =>
      intro h
      simp only [taskLoop] at h ⊢
      obtain ⟨h1, h2, l, h3⟩ := ih [] h
      exact ⟨h1, by omega, l, h3⟩
    | none :: rest =>
      intro h
      simp only [taskLoop] at h ⊢
      obtain ⟨h1, h2, l, h3⟩ := ih rest h
      exact ⟨h1, by omega, l, h3⟩
    | some d :: rest =>
      intro h
      simp only [taskLoop] at h ⊢
      by_cases hp : d = pause
      · simp only [if_pos hp] at h ⊢
        cases hdr : drainPause rest with
        | none => simp [hdr] at h
        | some p =>
          obtain ⟨d2, rest2⟩ := p
          simp only [hdr] at h ⊢
          by_cases hk : d2 = kill
          · simp [hk] at h
          · simp only [if_neg hk] at h ⊢
            obtain ⟨h1, h2, l, h3⟩ := ih rest2 h
            exact ⟨h1, by omega, Ev.paused :: Ev.running :: l, by simp [h3]⟩
      · simp only [if_neg hp] at h ⊢
        by_cases hk : d = kill
        · simp [hk] at h
        · simp only [if_neg hk] at h ⊢
          obtain ⟨h1, h2, l, h3⟩ := ih rest h
          exact ⟨h1, by omega, Ev.running :: l, by simp [h3]⟩

theorem taskLoop_killed_trace : ∀ (n : Nat) (inp : Inputs),
    (taskLoop n inp).outcome = Outcome.killed →
    ∃ l, (taskLoop n inp).trace = l ++ [Ev.killed] := by
  intro n
  induction n with
  | zero => intro inp h; simp [taskLoop] at h
  | succ n ih =>
    intro inp
    match inp with
    | [] =>
      intro h
      simp only [taskLoop] at h ⊢
      exact ih [] h
    | none :: rest =>
      intro h
      simp only [taskLoop] at h ⊢
      exact ih rest h
    | some d :: rest =>
      intro h
      simp only [taskLoop] at h ⊢
      by_cases hp : d = pause
      · simp only [if_pos hp] at h ⊢
        cases hdr : drainPause rest with
        | none => simp [hdr] at h
        | some p =>
          obtain ⟨d2, rest2⟩ := p
          simp only [hdr] at h ⊢
          by_cases hk : d2 = kill
          · exact ⟨[Ev.paused], by simp [hk]⟩
          · simp only [if_neg hk] at h ⊢
            obtain ⟨l, hl⟩ := ih rest2 h
            exact ⟨Ev.paused :: Ev.running :: l, by simp [hl]⟩
      · simp only [if_neg hp] at h ⊢
        by_cases hk : d = kill
        · exact ⟨[], by simp [hk]⟩
        · simp only [if_neg hk] at h ⊢
          obtain ⟨l, hl⟩ := ih rest h
          exact ⟨Ev.running :: l, by simp [hl]⟩

theorem taskLoop_after_killed : ∀ (n : Nat) (inp : Inputs) (l1 l2 : List Ev),
    (taskLoop n inp).trace = l1 ++ Ev.killed :: l2 → l2 = [] := by
  intro n
  induction n with
  | zero =>
    intro inp l1 l2 h
    simp only [taskLoop] at h
    cases l1 with
    | nil => simp at h
    | cons a l1 => simp at h
  | succ n ih =>
    intro inp
    match inp with
    | [] =>
      intro l1 l2 h
      simp only [taskLoop] at h
      exact ih [] l1 l2 h
    | none :: rest =>
      intro l1 l2 h
      simp only [taskLoop] at h
      exact ih rest l1 l2 h
    | some d :: rest =>
      intro l1 l2 h
      simp only [taskLoop] at h
      by_cases hp : d = pause
      · simp only [if_pos hp] at h
        cases hdr : drainPause rest with
        | none =>
          simp only [hdr] at h
          cases l1 with
          | nil => simp at h
          | cons a l1 => simp at h
        | some p =>
          obtain ⟨d2, rest2⟩ := p
          simp only [hdr] at h
          by_cases hk : d2 = kill
          · simp only [if_pos hk] at h
            cases l1 with
            | nil => simp at h
            | cons a l1 =>
              cases l1 with
              | nil =>
                simp at h
                exact h.2
              | cons b l1 => simp at h
          · simp only [if_neg hk] at h
            cases l1 with
            | nil => simp at h
            | cons a l1 =>
              cases l1 with
              | nil => simp at h
              | cons b l1 =>
                simp at h
                exact ih rest2 l1 l2 h.2.2
      · simp only [if_neg hp] at h
        by_cases hk : d = kill
        · simp only [if_pos hk] at h
          cases l1 with
          | nil =>
            simp at h
            exact h
          | cons a l1 => simp at h
        · simp only [if_neg hk] at h
          cases l1 with
          | nil => simp at h
          | cons a l1 =>
            simp at h
            exact ih rest l1 l2 h.2

theorem taskLoop_no_kill : ∀ (n : Nat) (inp : Inputs),
    (∀ x ∈ inp, x ≠ some kill) →
    (taskLoop n inp).outcome ≠ Outcome.killed := by
  intro n
  induction n with
  | zero => intro inp _ h; simp [taskLoop] at h
  | succ n ih =>
    intro inp
    match inp with
    | [] =>
      intro hin h
      simp only [taskLoop] at h
      exact ih [] (by simp) h
    | none :: rest =>
      intro hin h
      simp only [taskLoop] at h
      exact ih rest (fun x hx => hin x (List.mem_cons_of_mem _ hx)) h
    | some d :: rest =>
      intro hin h
      simp only [taskLoop] at h
      by_cases hp : d = pause
      · simp only [if_pos hp] at h
        cases hdr : drainPause rest with
        | none => simp [hdr] at h
        | some p =>
          obtain ⟨d2, rest2⟩ := p
          simp only [hdr] at h
          have hmem := drainPause_mem rest d2 rest2 hdr
          have hd2 : d2 ≠ kill := by
            intro hc
            exact hin (some d2) (List.mem_cons_of_mem _ hmem.1) (by simp [hc])
          simp only [if_neg hd2] at h
          exact ih rest2
            (fun x hx => hin x (List.mem_cons_of_mem _ (hmem.2 x hx))) h
      · simp only [if_neg hp] at h
        have hd : d ≠ kill := by
          intro hc
          exact hin (some d) (List.mem_cons_self _ _) (by simp [hc])
        simp only [if_neg hd] at h
        exact ih rest (fun x hx => hin x (List.mem_cons_of_mem _ hx)) h

theorem outcome_cases (o : Outcome) (h1 : o ≠ Outcome.killed)
    (h2 : o ≠ Outcome.blocked) : o = Outcome.completed := by
  cases o
  · rfl
  · exact absurd rfl h1
  · exact absurd rfl h2

theorem taskLoop_pause_blocked (n : Nat) (rest : Inputs)
    (h : drainPause rest = none) :
    taskLoop (n + 1) (some pause :: rest) =
      { outcome := Outcome.blocked, trace := [Ev.paused], work := 0, rollbacks := 0 } := by
  simp [taskLoop, h]

theorem taskLoop_pause_kill (n : Nat) (rest rest2 : Inputs)
    (h : drainPause rest = some (kill, rest2)) :
    taskLoop (n + 1) (some pause :: rest) =
      { outcome := Outcome.killed, trace := [Ev.paused, Ev.killed],
        work := 0, rollbacks := 1 } := by
  have : (pause : Nat) = pause := rfl
  simp [taskLoop, h, pause, kill]

theorem taskLoop_pause_head (n : Nat) (rest : Inputs) :
    (taskLoop (n + 1) (some pause :: rest)).trace.head? = some Ev.paused := by
  simp only [taskLoop, if_pos rfl]
  cases hdr : drainPause rest with
  | none => simp
  | some p =>
    obtain ⟨d2, rest2⟩ := p
    by_cases hk : d2 = kill <;> simp [hk]

theorem taskLoop_pause_pad (n : Nat) (pad rest : Inputs)
    (h : ∀ x ∈ pad, x = none ∨ x = some pause) :
    taskLoop (n + 1) (some pause :: (pad ++ rest)) =
      taskLoop (n + 1) (some pause :: rest) := by
  simp [taskLoop, drainPause_pad pad rest h]

theorem task_result (idn : Nat) (u : String) (count : Nat) (t : TaskHandler)
    (wg : Int) (inp : Inputs) :
    (task idn u count t wg inp).1 = taskLoop count inp := by
  unfold task
  cases ho : (taskLoop count inp).outcome <;> simp [ho]

theorem task_removed (idn : Nat) (u : String) (count : Nat) (t : TaskHandler)
    (wg : Int) (inp : Inputs) (h : (taskLoop count inp).outcome ≠ Outcome.blocked) :
    mget (task idn u count t wg inp).2.1.workers u = none ∧
    mget (task idn u count t wg inp).2.1.states u = none := by
  unfold task
  cases ho : (taskLoop count inp).outcome with
  | blocked => exact absurd ho h
  | completed => simp [ho, closeRoutine, mget_mdel_self]
  | killed => simp [ho, closeRoutine, mget_mdel_self]

theorem task_blocked (idn : Nat) (u : String) (count : Nat) (t : TaskHandler)
    (wg : Int) (inp : Inputs) (h : (taskLoop count inp).outcome = Outcome.blocked) :
    (task idn u count t wg inp).2.1 = t := by
  unfold task
  simp [h]

/-- The registry invariant implicit in the code: an id has a control channel in
`workers` exactly when it has a cached state in `states`. -/
def sameKeys (t : TaskHandler) : Prop :=
  ∀ k, (mget t.workers k).isSome = (mget t.states k).isSome

/-- The state main threads through its shutdown path: the handler registry, the
WaitGroup counter of in-flight workers and rollbacks, and whether the listening
endpoint has been released. -/
structure SysState where
  th : TaskHandler
  wg : Int
  serverClosed : Bool
deriving DecidableEq

/-- The termination path of `main` (main.go lines 263-279): after a signal is
received, `TerminateTasks` broadcasts `kill`, then `wg.Wait()` blocks until the
in-flight count is zero, and only then is the server shut down.  `wg.Wait` is
modelled as a guard: `none` means main is still blocked (in a broadcast send or
in the wait). -/
def mainShutdown (s : SysState) : Option SysState :=
  match TerminateTasks s.th with
  | none => none
  | some th2 =>
    if s.wg = 0 then some { th := th2, wg := s.wg, serverClosed := true }
    else none

/-- The two racing events between `CreateTask` and its worker: the handler's
send `t.workers[uuid] <- start` (tasks.go line 75, after `go task(...)` on line
74), and the worker's first non-blocking channel check (lines 171-172). -/
inductive CEv where
  | sendStart
  | workerCheck
deriving DecidableEq

/-- State of the create/worker race: the fresh capacity-1 channel buffer and the
result of the worker's first check once it has happened (`some none` = the check
found the channel empty, `some (some d)` = it consumed directive `d`). -/
structure CCState where
  buf : List Nat
  firstCheck : Option (Option Nat)
deriving DecidableEq

/-- One event of the create/worker race.  The send appends when the capacity-1
buffer has room; the check consumes the head directive when one is buffered. -/
def cstep (s : CCState) (e : CEv) : CCState :=
  match e with
  | CEv.sendStart =>
    if s.buf.length < 1 then { s with buf := s.buf ++ [start] } else s
  | CEv.workerCheck =>
    match s.buf with
    | [] => { s with firstCheck := some none }
    | d :: rest => { buf := rest, firstCheck := some (some d) }

/-- Run the create/worker race from the fresh-channel state under a given
interleaving.  Both orders of the two events are valid schedules, since the
send and the first check belong to different goroutines. -/
def runCreateRace (sched : List CEv) : CCState :=
  List.foldl cstep { buf := [], firstCheck := none } sched

theorem mset_mset {A : Type} (m : List (String × A)) (k : String) (v1 v2 : A) :
    mset (mset m k v1) k v2 = mset m k v2 := by
  induction m with
  | nil => simp [mset]
  | cons hd tl ih =>
    obtain ⟨k2, u2⟩ := hd
    by_cases h : k = k2
    · subst h
      simp [mset]
    · simp [mset, h, ih]

theorem mset_isSome {A : Type} (m : List (String × A)) (v k : String) (c2 : A)
    (hv : (mget m v).isSome = true) :
    (mget (mset m v c2) k).isSome = (mget m k).isSome := by
  by_cases hk : k = v
  · subst hk
    simp [mget_mset_self, hv]
  · rw [mget_mset_ne m v k c2 hk]

theorem CreateTask_eq (t : TaskHandler) (u : String) :
    CreateTask t u =
      some ({ workers := mset t.workers u { cap := 1, buf := [start] },
              states := mset t.states u start },
            { success := true, uuid := u }, 200, [u]) := by
  simp [CreateTask, mget_mset_self, chanSend, mset_mset]

theorem PauseTask_cases (t : TaskHandler) (v : String)
    (tr : TaskHandler × Response × Nat × List (String × Nat))
    (h : PauseTask t v = some tr) :
    tr.1 = t ∨
      ∃ c2, tr.1 = { workers := mset t.workers v c2, states := mset t.states v pause } ∧
        (mget t.workers v).isSome = true := by
  unfold PauseTask at h
  by_cases hp : mgetD t.states v 0 = pause
  · simp only [if_pos hp, Option.some_inj] at h
    left
    rw [← h]
  · simp only [if_neg hp] at h
    cases hg : mget t.workers v with
    | none => simp [hg] at h
    | some c =>
      simp only [hg] at h
      cases hs : chanSend c pause with
      | none => simp [hs] at h
      | some c2 =>
        simp only [hs, Option.some_inj] at h
        right
        exact ⟨c2, by rw [← h], by simp [hg]⟩

theorem ResumeTask_cases (t : TaskHandler) (v : String)
    (tr : TaskHandler × Response × Nat × List (String × Nat))
    (h : ResumeTask t v = some tr) :
    tr.1 = t ∨
      ∃ c2, tr.1 = { workers := mset t.workers v c2, states := mset t.states v start } ∧
        (mget t.workers v).isSome = true := by
  unfold ResumeTask at h
  by_cases hp : mgetD t.states v 0 = start
  · simp only [if_pos hp, Option.some_inj] at h
    left
    rw [← h]
  · simp only [if_neg hp] at h
    cases hg : mget t.workers v with
    | none => simp [hg] at h
    | some c =>
      simp only [hg] at h
      cases hs : chanSend c start with
      | none => simp [hs] at h
      | some c2 =>
        simp only [hs, Option.some_inj] at h
        right
        exact ⟨c2, by rw [← h], by simp [hg]⟩

theorem DeleteTask_cases (t : TaskHandler) (v : String)
    (tr : TaskHandler × Response × Nat × List (String × Nat))
    (h : DeleteTask t v = some tr) :
    ∃ c2, tr.1 = { workers := mset t.workers v c2, states := mset t.states v kill } ∧
      (mget t.workers v).isSome = true := by
  unfold DeleteTask at h
  cases hg : mget t.workers v with
  | none => simp [hg] at h
  | some c =>
    simp only [hg] at h
    cases hs : chanSend c kill with
    | none => simp [hs] at h
    | some c2 =>
      simp only [hs, Option.some_inj] at h
      exact ⟨c2, by rw [← h], by simp [hg]⟩

theorem broadcastKill_isSome (w w2 : List (String × Chan))
    (h : broadcastKill w = some w2) (k : String) :
    (mget w2 k).isSome = (mget w k).isSome := by
  induction w generalizing w2 with
  | nil =>
    simp only [broadcastKill, Option.some_inj] at h
    rw [← h]
  | cons hd tl ih =>
    obtain ⟨k1, c1⟩ := hd
    unfold broadcastKill at h
    cases hs : chanSend c1 kill with
    | none => simp [hs] at h
    | some c1' =>
      simp only [hs] at h
      cases hrest : broadcastKill tl with
      | none => simp [hrest] at h
      | some tl' =>
        simp only [hrest, Option.map_some'] at h
        injection h with h
        subst h
        by_cases hkk : k = k1
        · subst hkk
          simp [mget]
        · simp only [mget, if_neg hkk]
          exact ih tl' hrest

/-! Concrete fixtures for witnesses and counterexamples. -/

/-- A registry with one task `"u1"` whose cached state is `pause`. -/
def thPaused : TaskHandler :=
  { workers := [("u1", { cap := 1, buf := [] })], states := [("u1", pause)] }

/-- A registry with one task `"u1"` whose cached state is `start`. -/
def thRunning : TaskHandler :=
  { workers := [("u1", { cap := 1, buf := [] })], states := [("u1", start)] }

/-- The empty registry. -/
def thEmpty : TaskHandler := { workers := [], states := [] }

/-- A system about to shut down with one running task and a drained WaitGroup. -/
def sEx : SysState := { th := thRunning, wg := 0, serverClosed := false }

/-- The state `mainShutdown` produces from `sEx`. -/
def sExDone : SysState :=
  { th := { workers := [("u1", { cap := 1, buf := [kill] })], states := [("u1", start)] },
    wg := 0, serverClosed := true }

/-- A system with in-flight workers (WaitGroup count 3). -/
def sExBusy : SysState := { th := thRunning, wg := 3, serverClosed := false }

/-- Claim C1 as stated is false: on a task whose cached state is `pause`, the
short-circuit response of `PauseTask` carries `Success: true` (tasks.go line 86),
not `success: false`, and the message is `"Already paused"`.  The other parts
hold: the handler state is returned unchanged and no directive is posted. -/
theorem C1_counterexample :
    PauseTask thPaused "u1" =
      some (thPaused, { success := true, message := "Already paused" }, 200, []) ∧
    ({ success := true, message := "Already paused" } : Response).success ≠ false := by
  constructor
  · decide
  · decide

/-- Claim C1 (amended): for every task whose cached registry state is already
`pause`, a Pause request short-circuits: it returns success `true` with message
`"Already paused"`, posts no directive on the task's control channel, and
leaves the handler state (both maps) unchanged. -/
theorem C1_already_paused (t : TaskHandler) (u : String)
    (h : mgetD t.states u 0 = pause) :
    PauseTask t u = some (t, { success := true, message := "Already paused" }, 200, []) := by
  simp only [PauseTask, if_pos h]

/-- Witness for C1 at the concrete fixture `thPaused`. -/
theorem C1_witness :
    PauseTask thPaused "u1" =
      some (thPaused, { success := true, message := "Already paused" }, 200, []) :=
  C1_already_paused thPaused "u1" (by decide)

/-- Claim C2: every lifecycle route (pause, resume, delete go through
`MiddlewareCheckTask`) invoked with an id absent from the registry returns the
400 response with `success: false`, leaves the handler state untouched, posts
no directive, and does not block or crash; and once `closeRoutine` has removed
an entry, its id is absent, so subsequent lifecycle requests for it take
exactly this branch. -/
theorem C2_unknown_id (t : TaskHandler) (i : String)
    (h : mget t.workers i = none) :
    MiddlewareCheckTask PauseTask t i =
      some (t, { success := false, err := "task for given uuid does not exist" }, 400, []) ∧
    MiddlewareCheckTask ResumeTask t i =
      some (t, { success := false, err := "task for given uuid does not exist" }, 400, []) ∧
    MiddlewareCheckTask DeleteTask t i =
      some (t, { success := false, err := "task for given uuid does not exist" }, 400, []) ∧
    (∀ t2 wg u, mget ((closeRoutine t2 wg u).1).workers u = none ∧
      mget ((closeRoutine t2 wg u).1).states u = none) := by
  refine ⟨?_, ?_, ?_, ?_⟩
  · simp [MiddlewareCheckTask, h]
  · simp [MiddlewareCheckTask, h]
  · simp [MiddlewareCheckTask, h]
  · intro t2 wg u
    exact ⟨mget_mdel_self t2.workers u, mget_mdel_self t2.states u⟩

/-- Witness for C2: an unknown id on the empty registry. -/
theorem C2_witness :
    MiddlewareCheckTask DeleteTask thEmpty "zz" =
      some (thEmpty, { success := false, err := "task for given uuid does not exist" },
        400, []) :=
  (C2_unknown_id thEmpty "zz" (by decide)).2.2.1

/-- Claim C9 as stated is false: under the valid interleaving in which the
worker's first non-blocking check (tasks.go line 171) runs before the creating
handler's send (line 75), the first check finds the channel empty — it does not
consume a Run directive.  (The send does land in the channel, so after Create
returns the Run is pending, but the first check has already missed it.) -/
theorem C9_counterexample :
    (runCreateRace [CEv.workerCheck, CEv.sendStart]).firstCheck = some none ∧
    (runCreateRace [CEv.workerCheck, CEv.sendStart]).firstCheck ≠ some (some start) ∧
    (runCreateRace [CEv.workerCheck, CEv.sendStart]).buf = [start] := by
  refine ⟨by decide, by decide, by decide⟩

/-- Claim C9 (amended): Create enqueues one Run (`start`) directive on the fresh
capacity-1 control channel after spawning the worker.  Whether the worker's
first non-blocking check consumes it depends on scheduling: if the send runs
first, the first check finds and consumes the Run and the channel is empty
afterwards; if the worker checks first, the first check finds the channel
empty and the Run remains pending in the channel. -/
theorem C9_create_race :
    runCreateRace [CEv.sendStart, CEv.workerCheck] =
      { buf := [], firstCheck := some (some start) } ∧
    runCreateRace [CEv.workerCheck, CEv.sendStart] =
      { buf := [start], firstCheck := some none } := by
  refine ⟨by decide, by decide⟩

/-- Claim C10: every registry-mutating operation preserves the invariant that
`workers` and `states` have the same key set: an id has a control channel if
and only if it has a cached state. -/
theorem C10_same_keys :
    (∀ t u t2 r c p, CreateTask t u = some (t2, r, c, p) → sameKeys t → sameKeys t2) ∧
    (∀ t v tr, PauseTask t v = some tr → sameKeys t → sameKeys tr.1) ∧
    (∀ t v tr, ResumeTask t v = some tr → sameKeys t → sameKeys tr.1) ∧
    (∀ t v tr, DeleteTask t v = some tr → sameKeys t → sameKeys tr.1) ∧
    (∀ t wg u, sameKeys t → sameKeys (closeRoutine t wg u).1) := by
  have hset : ∀ (w : List (String × Chan)) (st : List (String × Nat)) (v : String)
      (c2 : Chan) (d : Nat), sameKeys { workers := w, states := st } →
      sameKeys { workers := mset w v c2, states := mset st v d } := by
    intro w st v c2 d h k
    by_cases hk : k = v
    · subst hk
      simp [mget_mset_self]
    · simp only []
      rw [mget_mset_ne w v k c2 hk, mget_mset_ne st v k d hk]
      exact h k
  refine ⟨?_, ?_, ?_, ?_, ?_⟩
  · intro t u t2 r c p hc h
    rw [CreateTask_eq t u] at hc
    simp only [Option.some_inj, Prod.mk.injEq] at hc
    obtain ⟨h1, -⟩ := hc
    rw [← h1]
    exact hset t.workers t.states u { cap := 1, buf := [start] } start
      (by intro k; exact h k)
  · intro t v tr h hs
    rcases PauseTask_cases t v tr h with h1 | ⟨c2, h1, -⟩
    · rw [h1]; exact hs
    · rw [h1]
      exact hset t.workers t.states v c2 pause (by intro k; exact hs k)
  · intro t v tr h hs
    rcases ResumeTask_cases t v tr h with h1 | ⟨c2, h1, -⟩
    · rw [h1]; exact hs
    · rw [h1]
      exact hset t.workers t.states v c2 start (by intro k; exact hs k)
  · intro t v tr h hs
    rcases DeleteTask_cases t v tr h with ⟨c2, h1, -⟩
    rw [h1]
    exact hset t.workers t.states v c2 kill (by intro k; exact hs k)
  · intro t wg u h k
    by_cases hk : k = u
    · subst hk
      simp [closeRoutine, mget_mdel_self]
    · simp only [closeRoutine]
      rw [mget_mdel_ne t.workers u k hk, mget_mdel_ne t.states u k hk]
      exact h k

/-- Witness for C10: `closeRoutine` on the one-task registry keeps the key sets equal. -/
theorem C10_witness :
    (mget (closeRoutine thPaused 0 "u1").1.workers "zz").isSome =
      (mget (closeRoutine thPaused 0 "u1").1.states "zz").isSome :=
  C10_same_keys.2.2.2.2 thPaused 0 "u1"
    (fun k => by by_cases h : k = "u1" <;> simp [thPaused, mget, h]) "zz"

/-- Claim C3: a worker run that consumes a Kill directive spawns exactly one
rollback, ends its status log at `killed` with nothing after it (no further
iterations), and its deferred `closeRoutine` removes the registry entry; a run
that completes its iteration budget naturally spawns no rollback. -/
theorem C3_kill_rollback :
    (∀ (n : Nat) (inp : Inputs), (taskLoop n inp).outcome = Outcome.killed →
      (taskLoop n inp).rollbacks = 1 ∧
      (∃ l, (taskLoop n inp).trace = l ++ [Ev.killed]) ∧
      (∀ l1 l2, (taskLoop n inp).trace = l1 ++ Ev.killed :: l2 → l2 = [])) ∧
    (∀ (n : Nat) (inp : Inputs), (taskLoop n inp).outcome = Outcome.completed →
      (taskLoop n inp).rollbacks = 0) ∧
    (∀ (idn : Nat) (u : String) (cnt : Nat) (t : TaskHandler) (wg : Int) (inp : Inputs),
      (taskLoop cnt inp).outcome = Outcome.killed →
      mget (task idn u cnt t wg inp).2.1.workers u = none ∧
      mget (task idn u cnt t wg inp).2.1.states u = none) := by
  refine ⟨?_, ?_, ?_⟩
  · intro n inp h
    exact ⟨taskLoop_killed_rollbacks n inp h, taskLoop_killed_trace n inp h,
      taskLoop_after_killed n inp⟩
  · intro n inp h
    exact (taskLoop_completed n inp h).1
  · intro idn u cnt t wg inp h
    exact task_removed idn u cnt t wg inp (by rw [h]; intro hc; cases hc)

/-- Witness for C3: an immediate Kill spawns one rollback and removes the
entry; a run with no directives at all completes with no rollback. -/
theorem C3_witness :
    (taskLoop 2 [some kill]).rollbacks = 1 ∧
    (taskLoop 2 []).rollbacks = 0 ∧
    mget (task 7 "u1" 2 thRunning 0 [some kill]).2.1.workers "u1" = none :=
  ⟨(C3_kill_rollback.1 2 [some kill] (by decide)).1,
   C3_kill_rollback.2.1 2 [] (by decide),
   (C3_kill_rollback.2.2 7 "u1" 2 thRunning 0 [some kill] (by decide)).1⟩

/-- Claim C4: on the process-level termination path, `kill` is broadcast to
every currently registered task (the server is only shut down in a state whose
in-flight count is zero, and `wg.Wait` blocks while the count is nonzero); and
a worker blocked in the pause loop that receives the broadcast `kill` — after
any number of empty instants or further pauses — is killed and spawns its
rollback. -/
theorem C4_shutdown_drain :
    (∀ s s2, mainShutdown s = some s2 →
      s2.serverClosed = true ∧ s2.wg = 0 ∧
      ∀ k c, mget s.th.workers k = some c →
        ∃ c2, mget s2.th.workers k = some c2 ∧ c2.buf = c.buf ++ [kill]) ∧
    (∀ s, s.wg ≠ 0 → mainShutdown s = none) ∧
    (∀ (n : Nat) (pad rest : Inputs), (∀ x ∈ pad, x = none ∨ x = some pause) →
      (taskLoop (n + 1) (some pause :: (pad ++ some kill :: rest))).outcome =
        Outcome.killed ∧
      (taskLoop (n + 1) (some pause :: (pad ++ some kill :: rest))).rollbacks = 1) := by
  refine ⟨?_, ?_, ?_⟩
  · intro s s2 h
    unfold mainShutdown at h
    cases ht : TerminateTasks s.th with
    | none => simp [ht] at h
    | some th2 =>
      simp only [ht] at h
      by_cases hw : s.wg = 0
      · simp only [if_pos hw, Option.some_inj] at h
        subst h
        refine ⟨rfl, hw, ?_⟩
        intro k c hk
        unfold TerminateTasks at ht
        cases hb : broadcastKill s.th.workers with
        | none => simp [hb] at ht
        | some w2 =>
          simp only [hb, Option.some_inj] at ht
          subst ht
          exact broadcastKill_mget s.th.workers w2 hb k c hk
      · simp [if_neg hw] at h
  · intro s hw
    unfold mainShutdown
    cases TerminateTasks s.th with
    | none => rfl
    | some th2 => simp [if_neg hw]
  · intro n pad rest hpad
    have hd : drainPause (pad ++ some kill :: rest) = some (kill, rest) := by
      rw [drainPause_pad pad _ hpad]
      simp [drainPause, pause, kill]
    rw [taskLoop_pause_kill n _ rest hd]
    exact ⟨rfl, rfl⟩

/-- Witness for C4 at the fixtures: shutdown from `sEx` reaches `sExDone`,
shutdown from a busy system blocks, and a paused worker killed through the
broadcast rolls back. -/
theorem C4_witness :
    (sExDone.serverClosed = true ∧ sExDone.wg = 0 ∧
      ∀ k c, mget sEx.th.workers k = some c →
        ∃ c2, mget sExDone.th.workers k = some c2 ∧ c2.buf = c.buf ++ [kill]) ∧
    mainShutdown sExBusy = none ∧
    ((taskLoop 1 (some pause :: ([none] ++ some kill :: []))).outcome =
        Outcome.killed ∧
      (taskLoop 1 (some pause :: ([none] ++ some kill :: []))).rollbacks = 1) :=
  ⟨C4_shutdown_drain.1 sEx sExDone (by decide),
   C4_shutdown_drain.2.1 sExBusy (by decide),
   C4_shutdown_drain.2.2 0 [none] [] (by decide)⟩

/-- Claim C5: a worker that consumes a Pause directive logs `paused` first;
while paused, any number of empty instants and further Pause directives leave
the run (in particular its work count) unchanged; the pause loop hands back
only a directive different from `pause`; and if no non-pause directive ever
arrives the worker blocks with no work iterations performed. -/
theorem C5_pause_blocks :
    ∀ (n : Nat) (rest : Inputs),
      ((taskLoop (n + 1) (some pause :: rest)).trace.head? = some Ev.paused) ∧
      (∀ pad, (∀ x ∈ pad, x = none ∨ x = some pause) →
        taskLoop (n + 1) (some pause :: (pad ++ rest)) =
          taskLoop (n + 1) (some pause :: rest)) ∧
      (∀ d rest2, drainPause rest = some (d, rest2) → d ≠ pause) ∧
      (drainPause rest = none →
        (taskLoop (n + 1) (some pause :: rest)).outcome = Outcome.blocked ∧
        (taskLoop (n + 1) (some pause :: rest)).work = 0) := by
  intro n rest
  refine ⟨taskLoop_pause_head n rest, ?_, ?_, ?_⟩
  · intro pad hpad
    exact taskLoop_pause_pad n pad rest hpad
  · intro d rest2 h
    exact drainPause_ne_pause rest d rest2 h
  · intro h
    rw [taskLoop_pause_blocked n rest h]
    exact ⟨rfl, rfl⟩

/-- Witness for C5 at concrete inputs: pause then resume, pause padded with an
empty instant and a repeated pause, and pause with no follow-up directive. -/
theorem C5_witness :
    (taskLoop 2 (some pause :: [some start])).trace.head? = some Ev.paused ∧
    taskLoop 2 (some pause :: ([none, some pause] ++ [some start])) =
      taskLoop 2 (some pause :: [some start]) ∧
    ((taskLoop 2 (some pause :: [])).outcome = Outcome.blocked ∧
      (taskLoop 2 (some pause :: [])).work = 0) :=
  ⟨(C5_pause_blocks 1 [some start]).1,
   (C5_pause_blocks 1 [some start]).2.1 [none, some pause] (by decide),
   (C5_pause_blocks 1 []).2.2.2 (by decide)⟩

/-- Claim C6: a worker that is never sent Kill and is not left blocked in the
pause loop performs exactly its full iteration budget of work, finishes with
outcome `completed` (its log ending in `completed`), spawns no rollback, and
its deferred `closeRoutine` removes the registry entry. -/
theorem C6_natural_completion :
    (∀ (n : Nat) (inp : Inputs), (∀ x ∈ inp, x ≠ some kill) →
      (taskLoop n inp).outcome ≠ Outcome.blocked →
      (taskLoop n inp).outcome = Outcome.completed ∧
      (taskLoop n inp).work = n ∧
      (taskLoop n inp).rollbacks = 0 ∧
      ∃ l, (taskLoop n inp).trace = l ++ [Ev.completed]) ∧
    (∀ (idn : Nat) (u : String) (cnt : Nat) (t : TaskHandler) (wg : Int) (inp : Inputs),
      (∀ x ∈ inp, x ≠ some kill) →
      (taskLoop cnt inp).outcome ≠ Outcome.blocked →
      mget (task idn u cnt t wg inp).2.1.workers u = none ∧
      mget (task idn u cnt t wg inp).2.1.states u = none) := by
  constructor
  · intro n inp hk hb
    have hc := outcome_cases _ (taskLoop_no_kill n inp hk) hb
    obtain ⟨h1, h2, h3⟩ := taskLoop_completed n inp hc
    exact ⟨hc, h2, h1, h3⟩
  · intro idn u cnt t wg inp hk hb
    exact task_removed idn u cnt t wg inp hb

/-- Witness for C6: a pause/resume schedule with no Kill completes all
iterations and removes the entry. -/
theorem C6_witness :
    ((taskLoop 2 [some pause, some start]).outcome = Outcome.completed ∧
      (taskLoop 2 [some pause, some start]).work = 2 ∧
      (taskLoop 2 [some pause, some start]).rollbacks = 0 ∧
      ∃ l, (taskLoop 2 [some pause, some start]).trace = l ++ [Ev.completed]) ∧
    mget (task 3 "u1" 2 thRunning 0 [some pause, some start]).2.1.workers "u1" = none :=
  ⟨C6_natural_completion.1 2 [some pause, some start] (by decide) (by decide),
   (C6_natural_completion.2 3 "u1" 2 thRunning 0 [some pause, some start]
      (by decide) (by decide)).1⟩

/-- Claim C7: `CreateTask` with a fresh uuid installs a capacity-1 channel
holding the start directive and cached state `start`, spawns the worker, and
returns the uuid with success, leaving every other id's entries untouched
(freshness of the uuid itself is the uuid library's guarantee); the entry then
exists until the worker exits: no lifecycle handler and no broadcast removes a
key, and the worker leaves the registry untouched unless its outcome is
`killed` or `completed`. -/
theorem C7_create_exists :
    (∀ t u, ∃ t2, CreateTask t u = some (t2, { success := true, uuid := u }, 200, [u]) ∧
      mget t2.workers u = some { cap := 1, buf := [start] } ∧
      mget t2.states u = some start ∧
      (∀ k, k ≠ u → mget t2.workers k = mget t.workers k ∧
        mget t2.states k = mget t.states k)) ∧
    (∀ t v tr, PauseTask t v = some tr →
      ∀ k, (mget tr.1.workers k).isSome = (mget t.workers k).isSome) ∧
    (∀ t v tr, ResumeTask t v = some tr →
      ∀ k, (mget tr.1.workers k).isSome = (mget t.workers k).isSome) ∧
    (∀ t v tr, DeleteTask t v = some tr →
      ∀ k, (mget tr.1.workers k).isSome = (mget t.workers k).isSome) ∧
    (∀ t t2, TerminateTasks t = some t2 →
      ∀ k, (mget t2.workers k).isSome = (mget t.workers k).isSome) ∧
    (∀ (idn : Nat) (u : String) (cnt : Nat) (t : TaskHandler) (wg : Int) (inp : Inputs),
      (taskLoop cnt inp).outcome ≠ Outcome.killed →
      (taskLoop cnt inp).outcome ≠ Outcome.completed →
      (task idn u cnt t wg inp).2.1 = t) := by
  refine ⟨?_, ?_, ?_, ?_, ?_, ?_⟩
  · intro t u
    refine ⟨_, CreateTask_eq t u, ?_, ?_, ?_⟩
    · exact mget_mset_self t.workers u { cap := 1, buf := [start] }
    · exact mget_mset_self t.states u start
    · intro k hk
      exact ⟨mget_mset_ne t.workers u k _ hk, mget_mset_ne t.states u k _ hk⟩
  · intro t v tr h k
    rcases PauseTask_cases t v tr h with h1 | ⟨c2, h1, hv⟩
    · rw [h1]
    · rw [h1]
      exact mset_isSome t.workers v k c2 hv
  · intro t v tr h k
    rcases ResumeTask_cases t v tr h with h1 | ⟨c2, h1, hv⟩
    · rw [h1]
    · rw [h1]
      exact mset_isSome t.workers v k c2 hv
  · intro t v tr h k
    rcases DeleteTask_cases t v tr h with ⟨c2, h1, hv⟩
    rw [h1]
    exact mset_isSome t.workers v k c2 hv
  · intro t t2 h k
    unfold TerminateTasks at h
    cases hb : broadcastKill t.workers with
    | none => simp [hb] at h
    | some w2 =>
      simp only [hb, Option.some_inj] at h
      rw [← h]
      exact broadcastKill_isSome t.workers w2 hb k
  · intro idn u cnt t wg inp h1 h2
    cases ho : (taskLoop cnt inp).outcome with
    | completed => exact absurd ho h2
    | killed => exact absurd ho h1
    | blocked => exact task_blocked idn u cnt t wg inp ho

/-- Witness for C7: create on the empty registry, pause preserving existence,
and a blocked worker leaving the registry untouched. -/
theorem C7_witness :
    (∃ t2, CreateTask thEmpty "u1" =
        some (t2, { success := true, uuid := "u1" }, 200, ["u1"]) ∧
      mget t2.workers "u1" = some { cap := 1, buf := [start] } ∧
      mget t2.states "u1" = some start ∧
      (∀ k, k ≠ "u1" → mget t2.workers k = mget thEmpty.workers k ∧
        mget t2.states k = mget thEmpty.states k)) ∧
    (task 5 "u1" 1 thRunning 0 [some pause]).2.1 = thRunning :=
  ⟨C7_create_exists.1 thEmpty "u1",
   C7_create_exists.2.2.2.2.2 5 "u1" 1 thRunning 0 [some pause]
     (by decide) (by decide)⟩

/-- Claim C8: Killed is terminal.  In every worker run, nothing follows a
`killed` entry in the status log — in particular the worker is never
subsequently `running` or `paused` — and when the outcome is killed the
worker's exit removes both registry entries for the task. -/
theorem C8_killed_terminal :
    (∀ (n : Nat) (inp : Inputs) (l1 l2 : List Ev),
      (taskLoop n inp).trace = l1 ++ Ev.killed :: l2 →
      l2 = [] ∧ Ev.running ∉ l2 ∧ Ev.paused ∉ l2) ∧
    (∀ (idn : Nat) (u : String) (cnt : Nat) (t : TaskHandler) (wg : Int) (inp : Inputs),
      (taskLoop cnt inp).outcome = Outcome.killed →
      mget (task idn u cnt t wg inp).2.1.workers u = none ∧
      mget (task idn u cnt t wg inp).2.1.states u = none) := by
  constructor
  · intro n inp l1 l2 h
    have h2 := taskLoop_after_killed n inp l1 l2 h
    subst h2
    exact ⟨rfl, by simp, by simp⟩
  · intro idn u cnt t wg inp h
    exact task_removed idn u cnt t wg inp (by rw [h]; intro hc; cases hc)

/-- Witness for C8: a pause-then-kill run ends at `killed` and the entry is gone. -/
theorem C8_witness :
    ([] = ([] : List Ev) ∧ Ev.running ∉ ([] : List Ev) ∧ Ev.paused ∉ ([] : List Ev)) ∧
    mget (task 9 "u1" 3 thPaused 0 [some pause, some kill]).2.1.states "u1" = none :=
  ⟨C8_killed_terminal.1 3 [some pause, some kill] [Ev.paused] [] (by decide),
   (C8_killed_terminal.2 9 "u1" 3 thPaused 0 [some pause, some kill] (by decide)).2⟩

end TaskManager
